import Mathlib

/-!
Verification of `ironic_python_agent/efi_utils.py`: a shallow embedding of the
UEFI bootloader discovery and NVRAM synchronization workflow, together with
theorems settling the specification claims.

Strings are modelled by Lean `String` (ASCII model of Python `str`); the model
of each Python builtin used by the source is defined below with a `py` prefix.
-/

deriving instance DecidableEq for Except

/-- Substring occurrence check on character lists: `pat` occurs in `l`. -/
def containsCore (pat : List Char) : List Char → Bool
  | [] => pat.isEmpty
  | c :: cs => pat.isPrefixOf (c :: cs) || containsCore pat cs

/-- Model of Python `pat in s` (substring containment). -/
def pyContains (s pat : String) : Bool :=
  containsCore pat.data s.data

/-- ASCII lower-casing of one character (model of `str.lower` per character). -/
def pyLowerChar (c : Char) : Char :=
  if 'A' ≤ c ∧ c ≤ 'Z' then Char.ofNat (c.toNat + 32) else c

/-- Model of Python `s.lower()` (ASCII model). -/
def pyLower (s : String) : String :=
  ⟨s.data.map pyLowerChar⟩

/-- Core of Python `s.replace(old, new)` on character lists: replace every
non-overlapping occurrence of `old` left to right. When `old` is empty,
Python inserts `new` before every character and at the end. -/
def pyReplaceCore (old new : List Char) : List Char → List Char
  | [] => if old = [] then new else []
  | c :: cs =>
    if h : old ≠ [] ∧ old.isPrefixOf (c :: cs) then
      new ++ pyReplaceCore old new (List.drop old.length (c :: cs))
    else if old = [] then
      new ++ c :: pyReplaceCore old new cs
    else
      c :: pyReplaceCore old new cs
termination_by l => l.length
decreasing_by
  · simp only [List.length_drop, List.length_cons]
    have hlen : 0 < old.length := List.length_pos.mpr h.1
    omega
  · simp
  · simp

/-- Model of Python `s.replace(old, new)`. -/
def pyReplace (s old new : String) : String :=
  ⟨pyReplaceCore old.data new.data s.data⟩

/-- Core of Python `s.split(sep, maxsplit)` on character lists; `sep` must be
non-empty (Python raises on an empty separator; no call site passes one).
`none` means no limit on the number of splits. -/
def pySplitCore (sep : List Char) (maxsplit : Option Nat) : List Char → List (List Char)
  | [] => [[]]
  | c :: cs =>
    if h : sep ≠ [] ∧ maxsplit ≠ some 0 ∧ sep.isPrefixOf (c :: cs) then
      [] :: pySplitCore sep (maxsplit.map (· - 1)) (List.drop sep.length (c :: cs))
    else
      match pySplitCore sep maxsplit cs with
      | [] => [[c]]
      | f :: fs => (c :: f) :: fs
termination_by l => l.length
decreasing_by
  · simp only [List.length_drop, List.length_cons]
    have hlen : 0 < sep.length := List.length_pos.mpr h.1
    omega
  · simp

/-- Model of Python `s.split(sep, maxsplit)`. -/
def pySplit (s sep : String) (maxsplit : Option Nat) : List String :=
  (pySplitCore sep.data maxsplit s.data).map (fun l => ⟨l⟩)

/-- Digit run with single underscores allowed between digits
(Python `int` literal body), returning its value. -/
def pyDigitsValue : List Char → Option Nat
  | [] => none
  | [c] => if c.isDigit then some (c.toNat - '0'.toNat) else none
  | c :: d :: cs =>
    if c.isDigit then
      match (if d = '_' then pyDigitsValue cs else pyDigitsValue (d :: cs)) with
      | some v =>
        -- value of the remaining digits, scaled by their count
        some ((c.toNat - '0'.toNat) *
          10 ^ ((if d = '_' then cs else d :: cs).countP Char.isDigit) + v)
      | none => none
    else none

/-- Model of Python `int(s)` for base 10: optional surrounding whitespace,
optional sign, then digits with optional single underscores between them.
Returns `none` where Python raises `ValueError`. -/
def pyInt (s : String) : Option Int :=
  let t := s.data.dropWhile Char.isWhitespace
  let t := (t.reverse.dropWhile Char.isWhitespace).reverse
  match t with
  | '+' :: rest => (pyDigitsValue rest).map Int.ofNat
  | '-' :: rest => (pyDigitsValue rest).map (fun n => -(Int.ofNat n))
  | rest => (pyDigitsValue rest).map Int.ofNat

/-- Model of Python `str.isdigit` on the last character (`device[-1].isdigit()`);
the caller guarantees the string is non-empty (Python raises `IndexError`
otherwise, handled at the call site). ASCII model. -/
def pyLastIsDigit (s : String) : Bool :=
  match s.data.getLast? with
  | some c => c.isDigit
  | none => false

/-- `BOOTLOADERS_EFI` from the source: the fixed recognized set of bootloader
file names. -/
def BOOTLOADERS_EFI : List String :=
  [ "bootx64.csv",
    "boot.csv",
    "bootia32.efi",
    "bootx64.efi",
    "bootia64.efi",
    "bootarm.efi",
    "bootaa64.efi",
    "bootriscv32.efi",
    "bootriscv64.efi",
    "bootriscv128.efi",
    "grubaa64.efi",
    "winload.efi" ]

/-- A file as seen by the directory walk: its name and whether
`os.access(path, os.X_OK)` holds for it. -/
structure FsFile where
  name : String
  executable : Bool
deriving DecidableEq, Repr

/-- A directory tree: directory name, regular files, subdirectories. -/
inductive FsTree where
  | node (name : String) (files : List FsFile) (subdirs : List FsTree)
deriving Repr

/-- The files of the root directory of a tree. -/
def FsTree.files : FsTree → List FsFile
  | .node _ fs _ => fs

/-- The subdirectories of the root directory of a tree. -/
def FsTree.subdirs : FsTree → List FsTree
  | .node _ _ ds => ds

/-- The name of the root directory of a tree. -/
def FsTree.dirname : FsTree → String
  | .node n _ _ => n

mutual

/-- Model of `os.walk(path)` over an `FsTree` mounted at `path`: yields
`(root, files)` pairs top-down, the root first and then each subdirectory
in listing order. -/
def walkTree (path : String) : FsTree → List (String × List FsFile)
  | .node _ files subs => (path, files) :: walkForest path subs

/-- Walk of a list of sibling subdirectories of `path`, in order. -/
def walkForest (path : String) : List FsTree → List (String × List FsFile)
  | [] => []
  | t :: ts => walkTree (path ++ "/" ++ t.dirname) t ++ walkForest path ts

end

/-- Python string slice `s[1:]` (character-based model). -/
def strTail (s : String) : String :=
  ⟨s.data.drop 1⟩

/-- `efi_f.split(location)[-1][1:]` from the source: the path made relative to
the scan location. -/
def relOf (location efi_f : String) : String :=
  strTail ((pySplit efi_f location none).getLastD "")

/-- Line 166: the name filter `f.lower() in BOOTLOADERS_EFI`
(case-insensitive membership in the recognized set). -/
def isMatchedName (name : String) : Bool :=
  BOOTLOADERS_EFI.contains (pyLower name)

/-- Line 176: the hint test `'csv' in efi_f.lower()`, applied to the full
joined path `root/name`, lowercased. -/
def isHintPath (root name : String) : Bool :=
  pyContains (pyLower (root ++ "/" ++ name)) "csv"

/-- The inner loop of `_get_efi_bootloaders` over the matched files of one
directory (lines 169-186): `.error r` models the early `return [v_bl]` on a
hint file, `.ok acc` continues the walk with the accumulated valid
bootloaders. -/
def scanDirFiles (location root : String) :
    List FsFile → List String → Except (List String) (List String)
  | [], acc => .ok acc
  | f :: fs, acc =>
    let acc := if f.executable then acc ++ [relOf location (root ++ "/" ++ f.name)] else acc
    if isHintPath root f.name then .error [relOf location (root ++ "/" ++ f.name)]
    else scanDirFiles location root fs acc

/-- The outer loop of `_get_efi_bootloaders` over the `os.walk` output. -/
def scanWalk (location : String) :
    List (String × List FsFile) → List String → List String
  | [], acc => acc
  | (root, files) :: rest, acc =>
    let efi_files := files.filter (fun f => isMatchedName f.name)
    match scanDirFiles location root efi_files acc with
    | .error r => r
    | .ok acc' => scanWalk location rest acc'

/-- `_get_efi_bootloaders(location)` from the source, over the `os.walk`
output of the tree mounted at `location`. -/
def _get_efi_bootloaders (location : String) (walk : List (String × List FsFile)) :
    List String :=
  scanWalk location walk []

/-- A character of the regex class `[0-9a-f-A-F]` from line 207: decimal
digits, `a`-`f`, a literal `-`, and `A`-`F`. -/
def isBootNumChar (c : Char) : Bool :=
  c.isDigit || ('a' ≤ c && c ≤ 'f') || ('A' ≤ c && c ≤ 'F') || c = '-'

/-- Model of `re.compile(r'Boot([0-9a-f-A-F]+)\*?\s(.*).*$').match(line)`:
anchored at the start, `Boot`, a non-empty run of class characters
(maximal munch is equivalent here since neither `*` nor whitespace is in
the class), an optional `*`, one whitespace character, and the rest of the
line as group 2. Returns `(group1, group2)`. -/
def entryMatch (line : String) : Option (String × String) :=
  match line.data with
  | 'B' :: 'o' :: 'o' :: 't' :: rest =>
    let num := rest.takeWhile isBootNumChar
    if num.isEmpty then none
    else
      match (match rest.dropWhile isBootNumChar with | '*' :: r => r | r => r) with
      | c :: r => if c.isWhitespace then some (⟨num⟩, ⟨r⟩) else none
      | [] => none
  | _ => none

/-- The external commands the workflow executes, in order. -/
inductive Cmd where
  | mount (dev mp : String)
  | umount (mp : String)
  | sync
  | listEntries
  | deleteEntry (bootNum : String)
  | createEntry (device : String) (part : Int) (label : String) (loader : String)
deriving DecidableEq, Repr

/-- The Python exceptions the workflow can raise. -/
inductive PyErr where
  | processExecution (msg : String)
  | deviceNotFound
  | commandExecution (msg : String)
  | valueError
  | indexError
  | unboundLocal
deriving DecidableEq, Repr

/-- The per-candidate duplicate-elimination loop of `_run_efibootmgr`
(lines 227-235): for each line of the earlier `efibootmgr -v` stdout that
matches the `Boot<hex-id>` pattern and whose remainder contains the label
as a substring, delete that boot number. -/
def candidateDeletes (output label : String) : List Cmd :=
  (pySplit output "\n" none).foldr
    (fun line acc =>
      match entryMatch line with
      | some mtch => if pyContains mtch.2 label then Cmd.deleteEntry mtch.1 :: acc else acc
      | none => acc) []

/-- Lines 210-224: the per-candidate `(v_efi_bl_path, label)` computation.
For a hint candidate (its lowercased relative path contains `csv`) the
decoded contents are split on the first three commas, field 1 replaces
the hint's filename inside the relative path and field 2 is the label;
a missing field 2 is an uncaught `IndexError`. Otherwise the candidate
itself is the loader and the label is `ironic<label_id>`. The relative
path is then converted to firmware-native form. -/
def candidateLabelPath (mount_point : String) (readFile : String → String)
    (v_bl : String) (label_id : Nat) : Except PyErr (String × String) :=
  if pyContains (pyLower v_bl) "csv" then
    let contents := readFile (mount_point ++ "/" ++ v_bl)
    let csv_contents := pySplit contents "," (some 3)
    match csv_contents[1]? with
    | some label =>
      let csv_filename := (pySplit v_bl "/" none).getLastD ""
      let v_efi_bl_path := pyReplace v_bl csv_filename (csv_contents.headD "")
      .ok ("\\" ++ pyReplace v_efi_bl_path "/" "\\", label)
    | none => .error .indexError
  else
    .ok ("\\" ++ pyReplace v_bl "/" "\\", "ironic" ++ toString label_id)

/-- The candidate loop of `_run_efibootmgr` (lines 209-246), as the trace of
`efibootmgr` commands it executes plus an optional uncaught exception.
`readFile` models reading and UTF-16-decoding a file below the mount point;
`output` is the stdout of the initial `efibootmgr -v`. -/
def runEfibootmgrLoop (device : String) (efi_partition : Int) (mount_point : String)
    (readFile : String → String) (output : String) :
    List String → Nat → List Cmd × Option PyErr
  | [], _ => ([], none)
  | v_bl :: rest, label_id =>
    match candidateLabelPath mount_point readFile v_bl label_id with
    | .error e => ([], some e)
    | .ok pl =>
      let here := candidateDeletes output pl.2 ++
        [Cmd.createEntry device efi_partition pl.2 pl.1]
      let rec_ := runEfibootmgrLoop device efi_partition mount_point readFile output
        rest (label_id + 1)
      (here ++ rec_.1, rec_.2)

/-- `_run_efibootmgr` (lines 190-246): query the boot order once, then run the
candidate loop with the label counter starting at 1. -/
def _run_efibootmgr (valid_efi_bootloaders : List String) (device : String)
    (efi_partition : Int) (mount_point : String) (readFile : String → String)
    (output : String) : List Cmd × Option PyErr :=
  let r := runEfibootmgrLoop device efi_partition mount_point readFile output
    valid_efi_bootloaders 1
  (Cmd.listEntries :: r.1, r.2)

/-- Lines 86-91: the partition device path handed to `mount`: a `p` is
inserted before the partition number exactly when the device name ends in
a digit. -/
def efi_device_part (device : String) (efi_partition : Int) : String :=
  if pyLastIsDigit device then device ++ "p" ++ toString efi_partition
  else device ++ toString efi_partition

/-- The behavior of the external collaborators of `manage_uefi` during one
invocation: command success/failure, resolution results, and the mounted
filesystem's contents. -/
structure Env where
  rescanOk : Bool
  rescanErr : String
  tmpdir : String
  findEfiPartition : Option Int
  getPartition : String
  mountOk : Bool
  mountErr : String
  walk : List (String × List FsFile)
  readFile : String → String
  efibootmgrListOk : Bool
  efibootmgrListErr : String
  efiOutput : String
  umountOk : Bool
  umountErr : String
  syncOk : Bool

/-- The observable state of one `manage_uefi` invocation: whether the
temporary directory was created and still exists, whether the ESP was
mounted, and the trace of executed commands. -/
structure St where
  tmpCreated : Bool
  tmpExists : Bool
  mounted : Bool
  trace : List Cmd
deriving DecidableEq, Repr

/-- The main body of `manage_uefi` (lines 46-103), before the
`except ProcessExecutionError` wrapper and the `finally` block. -/
def manage_uefi_body (env : Env) (device : String) (efi_system_part_uuid : Option String) :
    Except PyErr Bool × St :=
  if ¬ env.rescanOk then
    -- utils.rescan_device failed before tempfile.mkdtemp ran
    (.error (.processExecution env.rescanErr),
     { tmpCreated := false, tmpExists := false, mounted := false, trace := [] })
  else
    let st0 : St := { tmpCreated := true, tmpExists := true, mounted := false, trace := [] }
    -- lines 52-54: content-based detection; a dict is truthy iff present
    let efi_partition : Option Int := env.findEfiPartition
    -- lines 56-66: UUID fallback; `not efi_partition` is true for None and 0
    let needUuid : Bool :=
      match efi_partition with
      | some n => n == 0
      | none => true
    let resolved : Except PyErr (Option Int) :=
      if needUuid ∧ efi_system_part_uuid.isSome then
        let partition := env.getPartition
        match pyInt (pyReplace partition device "") with
        | some n => .ok (some n)
        | none =>
          match pyInt (pyReplace partition (device ++ "p") "") with
          | some n => .ok (some n)
          | none => .error .valueError
      else .ok efi_partition
    match resolved with
    | .error e => (.error e, st0)
    | .ok efi_partition =>
      -- lines 68-77: `if not efi_partition: raise DeviceNotFound`
      match efi_partition with
      | none => (.error .deviceNotFound, st0)
      | some part =>
        if part = 0 then (.error .deviceNotFound, st0)
        else
          let mp := env.tmpdir ++ "/boot/efi"
          if device = "" then
            -- device[-1] on the empty string raises IndexError
            (.error .indexError, st0)
          else
            let st1 := { st0 with trace := st0.trace ++ [Cmd.mount (efi_device_part device part) mp] }
            if ¬ env.mountOk then
              (.error (.processExecution env.mountErr), st1)
            else
              let st2 := { st1 with mounted := true }
              let bls := _get_efi_bootloaders mp env.walk
              if bls.isEmpty then
                (.ok false, st2)
              else if ¬ env.efibootmgrListOk then
                (.error (.processExecution env.efibootmgrListErr),
                 { st2 with trace := st2.trace ++ [Cmd.listEntries] })
              else
                let r := _run_efibootmgr bls device part mp env.readFile env.efiOutput
                let st3 := { st2 with trace := st2.trace ++ r.1 }
                match r.2 with
                | some e => (.error e, st3)
                | none => (.ok true, st3)

/-- Lines 105-109: a `ProcessExecutionError` escaping the main body is
wrapped into a `CommandExecutionError` naming the device and the
underlying error; other outcomes pass through. -/
def wrapProcessError (device : String) : Except PyErr Bool → Except PyErr Bool
  | .error (.processExecution e) =>
    .error (.commandExecution
      ("Could not verify uefi on device " ++ device ++ ", failed with " ++ e ++ "."))
  | r => r

/-- Lines 124-133: the `else` of the cleanup `try`: run `sync`; on failure
only warn (the temporary directory is not removed); on success remove the
temporary directory tree. Referencing `local_path` when it was never
assigned raises `NameError`, which replaces the in-flight outcome. -/
def manage_uefi_sync (env : Env) (r : Except PyErr Bool) (st : St) :
    Except PyErr Bool × St :=
  if ¬ env.syncOk then
    if st.tmpCreated then (r, { st with trace := st.trace ++ [Cmd.sync] })
    else (.error .unboundLocal, { st with trace := st.trace ++ [Cmd.sync] })
  else if st.tmpCreated then
    (r, { st with tmpExists := false, trace := st.trace ++ [Cmd.sync] })
  else (.error .unboundLocal, { st with trace := st.trace ++ [Cmd.sync] })

/-- The `finally` block of `manage_uefi` (lines 110-133). Per Python
semantics an exception raised inside `finally` replaces whatever outcome
(return value or exception) was in flight. -/
def manage_uefi_cleanup (env : Env) (r : Except PyErr Bool) (st : St) :
    Except PyErr Bool × St :=
  if st.mounted then
    if ¬ env.umountOk then
      (.error (.commandExecution
        ("Umounting efi system partition failed. Attempted 3 times. Error: "
          ++ env.umountErr)),
       { st with trace := st.trace ++ [Cmd.umount (env.tmpdir ++ "/boot/efi")] })
    else manage_uefi_sync env r
      { st with trace := st.trace ++ [Cmd.umount (env.tmpdir ++ "/boot/efi")] }
  else manage_uefi_sync env r st

/-- `manage_uefi` (lines 30-133): main body, `ProcessExecutionError`
wrapping, then the guaranteed cleanup. -/
def manage_uefi (env : Env) (device : String) (efi_system_part_uuid : Option String) :
    Except PyErr Bool × St :=
  let r := manage_uefi_body env device efi_system_part_uuid
  manage_uefi_cleanup env (wrapProcessError device r.1) r.2

/-! ### Helper lemmas about the cleanup phase -/

theorem manage_uefi_sync_mounted (env : Env) (r : Except PyErr Bool) (st : St) :
    (manage_uefi_sync env r st).2.mounted = st.mounted := by
  unfold manage_uefi_sync
  split <;> split <;> rfl

theorem manage_uefi_cleanup_mounted (env : Env) (r : Except PyErr Bool) (st : St) :
    (manage_uefi_cleanup env r st).2.mounted = st.mounted := by
  unfold manage_uefi_cleanup
  split
  · split
    · rfl
    · rw [manage_uefi_sync_mounted]
  · rw [manage_uefi_sync_mounted]

theorem manage_uefi_sync_keeps_outcome (env : Env) (r : Except PyErr Bool) (st : St)
    (hc : st.tmpCreated = true) :
    (manage_uefi_sync env r st).1 = r := by
  unfold manage_uefi_sync
  split <;> simp [hc]

theorem manage_uefi_cleanup_keeps_outcome (env : Env) (r : Except PyErr Bool) (st : St)
    (hc : st.tmpCreated = true) (hm : st.mounted = true → env.umountOk = true) :
    (manage_uefi_cleanup env r st).1 = r := by
  unfold manage_uefi_cleanup
  split
  · rename_i hmt
    rw [hm hmt]
    simp only [not_true_eq_false, if_false]
    exact manage_uefi_sync_keeps_outcome env r _ hc
  · exact manage_uefi_sync_keeps_outcome env r _ hc

theorem manage_uefi_cleanup_umount_fail (env : Env) (r : Except PyErr Bool) (st : St)
    (hmt : st.mounted = true) (hu : env.umountOk = false) :
    (manage_uefi_cleanup env r st).1 =
      .error (.commandExecution
        ("Umounting efi system partition failed. Attempted 3 times. Error: "
          ++ env.umountErr)) := by
  unfold manage_uefi_cleanup
  rw [hmt]
  simp [hu]

theorem manage_uefi_body_tmp (env : Env) (device : String) (uuid : Option String)
    (hr : env.rescanOk = true) :
    (manage_uefi_body env device uuid).2.tmpCreated = true ∧
    (manage_uefi_body env device uuid).2.tmpExists = true := by
  unfold manage_uefi_body
  rw [hr]
  simp only [not_true_eq_false, if_false]
  repeat' split
  all_goals simp

theorem manage_uefi_mounted_eq (env : Env) (device : String) (uuid : Option String) :
    (manage_uefi env device uuid).2.mounted =
      (manage_uefi_body env device uuid).2.mounted := by
  unfold manage_uefi
  exact manage_uefi_cleanup_mounted _ _ _

/-! ### Claim C1 -/

/-- Environment for the C1 counterexample: a hint file whose content has no
comma makes the main body fail with `IndexError` after the mount succeeded,
and the cleanup unmount also fails. -/
def envC1 : Env where
  rescanOk := true
  rescanErr := "rescan boom"
  tmpdir := "/tmp/T"
  findEfiPartition := some 1
  getPartition := ""
  mountOk := true
  mountErr := "mount boom"
  walk := [("/tmp/T/boot/efi", [⟨"boot.csv", false⟩])]
  readFile := fun _ => "nocommas"
  efibootmgrListOk := true
  efibootmgrListErr := "efibootmgr boom"
  efiOutput := ""
  umountOk := false
  umountErr := "umount boom"
  syncOk := true

/-- C1 counterexample: the main body of this invocation fails with
`IndexError`, the cleanup unmount also fails, and the error that
propagates is the cleanup `CommandExecutionError`, not the original
main-body error — contradicting the claim that the original failure still
propagates. -/
theorem claim_C1_counterexample :
    (manage_uefi_body envC1 "/dev/sda" none).1 = .error .indexError ∧
    (manage_uefi envC1 "/dev/sda" none).1 =
      .error (.commandExecution
        "Umounting efi system partition failed. Attempted 3 times. Error: umount boom") := by
  constructor
  · simp [manage_uefi_body, envC1, _get_efi_bootloaders, scanWalk, scanDirFiles,
      _run_efibootmgr, runEfibootmgrLoop, candidateLabelPath, isHintPath, isMatchedName,
      pyContains, pyLower, pyLowerChar, containsCore, pySplit, pySplitCore,
      relOf, BOOTLOADERS_EFI, efi_device_part, pyLastIsDigit]
  · simp [manage_uefi, manage_uefi_body, manage_uefi_cleanup, manage_uefi_sync,
      wrapProcessError, envC1, _get_efi_bootloaders, scanWalk, scanDirFiles,
      _run_efibootmgr, runEfibootmgrLoop, candidateLabelPath, isHintPath, isMatchedName,
      pyContains, pyLower, pyLowerChar, containsCore, pySplit, pySplitCore,
      relOf, BOOTLOADERS_EFI, efi_device_part, pyLastIsDigit]

/-- C1 (amended): whenever the ESP was mounted and the cleanup unmount fails,
the `CommandExecutionError` built from the unmount failure is what
propagates to the caller, superseding the main body's outcome in every
case — a prior success and also a prior main-body error (the main-body
error is logged but replaced, per Python `finally` semantics). -/
theorem claim_C1_amended (env : Env) (device : String) (uuid : Option String)
    (hm : (manage_uefi env device uuid).2.mounted = true)
    (hu : env.umountOk = false) :
    (manage_uefi env device uuid).1 =
      .error (.commandExecution
        ("Umounting efi system partition failed. Attempted 3 times. Error: "
          ++ env.umountErr)) := by
  rw [manage_uefi_mounted_eq] at hm
  unfold manage_uefi
  exact manage_uefi_cleanup_umount_fail _ _ _ hm hu

/-- Witness for C1 (amended) at a concrete invocation. -/
theorem claim_C1_amended_witness :
    (manage_uefi envC1 "/dev/sda" none).2.mounted = true ∧
    envC1.umountOk = false ∧
    (manage_uefi envC1 "/dev/sda" none).1 =
      .error (.commandExecution
        "Umounting efi system partition failed. Attempted 3 times. Error: umount boom") := by
  refine ⟨?_, rfl, ?_⟩
  · simp [manage_uefi, manage_uefi_body, manage_uefi_cleanup, manage_uefi_sync,
      wrapProcessError, envC1, _get_efi_bootloaders, scanWalk, scanDirFiles,
      _run_efibootmgr, runEfibootmgrLoop, candidateLabelPath, isHintPath, isMatchedName,
      pyContains, pyLower, pyLowerChar, containsCore, pySplit, pySplitCore,
      relOf, BOOTLOADERS_EFI, efi_device_part, pyLastIsDigit]
  · exact claim_C1_amended envC1 "/dev/sda" none
      (by
        simp [manage_uefi, manage_uefi_body, manage_uefi_cleanup, manage_uefi_sync,
          wrapProcessError, envC1, _get_efi_bootloaders, scanWalk, scanDirFiles,
          _run_efibootmgr, runEfibootmgrLoop, candidateLabelPath, isHintPath, isMatchedName,
          pyContains, pyLower, pyLowerChar, containsCore, pySplit, pySplitCore,
          relOf, BOOTLOADERS_EFI, efi_device_part, pyLastIsDigit]) rfl

/-! ### Claim C2 -/

theorem manage_uefi_sync_tmpExists (env : Env) (r : Except PyErr Bool) (st : St)
    (hc : st.tmpCreated = true) (he : st.tmpExists = true) :
    (manage_uefi_sync env r st).2.tmpExists = !env.syncOk := by
  unfold manage_uefi_sync
  split <;> simp_all

theorem manage_uefi_cleanup_tmpExists (env : Env) (r : Except PyErr Bool) (st : St)
    (hc : st.tmpCreated = true) (he : st.tmpExists = true)
    (hm : st.mounted = true → env.umountOk = true) :
    (manage_uefi_cleanup env r st).2.tmpExists = !env.syncOk := by
  unfold manage_uefi_cleanup
  split
  · rename_i hmt
    rw [hm hmt]
    simp only [not_true_eq_false, if_false]
    exact manage_uefi_sync_tmpExists env r _ hc he
  · exact manage_uefi_sync_tmpExists env r _ hc he

/-- Environment for the C2 counterexample: a perfectly healthy invocation of
an empty ESP, except that the final `sync` fails. -/
def envC2 : Env where
  rescanOk := true
  rescanErr := "rescan boom"
  tmpdir := "/tmp/T"
  findEfiPartition := some 1
  getPartition := ""
  mountOk := true
  mountErr := "mount boom"
  walk := [("/tmp/T/boot/efi", [])]
  readFile := fun _ => ""
  efibootmgrListOk := true
  efibootmgrListErr := "efibootmgr boom"
  efiOutput := ""
  umountOk := true
  umountErr := "umount boom"
  syncOk := false

/-- C2 counterexample: an invocation that unmounts successfully and returns
`false`, but whose `sync` fails: the temporary directory tree still exists
after the call returns, contradicting the claim that it is removed even
when the sync command fails. -/
theorem claim_C2_counterexample :
    (manage_uefi envC2 "/dev/sda" none).1 = .ok false ∧
    (manage_uefi envC2 "/dev/sda" none).2.mounted = true ∧
    envC2.umountOk = true ∧
    (manage_uefi envC2 "/dev/sda" none).2.tmpExists = true := by
  refine ⟨?_, ?_, rfl, ?_⟩ <;>
    (simp [manage_uefi, manage_uefi_body, manage_uefi_cleanup, manage_uefi_sync,
      wrapProcessError, envC2, _get_efi_bootloaders, scanWalk, scanDirFiles,
      _run_efibootmgr, runEfibootmgrLoop, candidateLabelPath, isHintPath, isMatchedName,
      pyContains, pyLower, pyLowerChar, containsCore, pySplit, pySplitCore,
      relOf, BOOTLOADERS_EFI, efi_device_part, pyLastIsDigit])

/-- C2 (amended): when the temporary directory was created (the rescan
succeeded) and the unmount succeeded or was not needed, the temporary
directory tree is removed exactly when the final `sync` succeeds; a `sync`
failure is non-fatal for the call's outcome, but the directory tree is
then left in place rather than removed. -/
theorem claim_C2_amended (env : Env) (device : String) (uuid : Option String)
    (hr : env.rescanOk = true)
    (hu : (manage_uefi env device uuid).2.mounted = true → env.umountOk = true) :
    (manage_uefi env device uuid).2.tmpExists = !env.syncOk := by
  rw [manage_uefi_mounted_eq] at hu
  have htmp := manage_uefi_body_tmp env device uuid hr
  unfold manage_uefi
  exact manage_uefi_cleanup_tmpExists env _ _ htmp.1 htmp.2 hu

/-- Witness for C2 (amended): a healthy invocation whose `sync` succeeds
does remove the temporary tree. -/
theorem claim_C2_amended_witness :
    ({ envC2 with syncOk := true } : Env).rescanOk = true ∧
    (manage_uefi { envC2 with syncOk := true } "/dev/sda" none).2.tmpExists = false := by
  refine ⟨rfl, ?_⟩
  have h := claim_C2_amended { envC2 with syncOk := true } "/dev/sda" none rfl
    (fun _ => rfl)
  simpa using h

/-! ### Claim C9 -/

/-- C9: when content-based ESP detection yields nothing, a partition UUID was
supplied, and the UUID-resolved partition device path matches neither the
`<device><digits>` nor the `<device>p<digits>` convention (both `int`
conversions fail), `manage_uefi` raises `ValueError`, not `DeviceNotFound`
or `CommandExecutionError`. -/
theorem claim_C9 (env : Env) (device : String) (u : String)
    (hr : env.rescanOk = true)
    (hf : env.findEfiPartition = none)
    (h1 : pyInt (pyReplace env.getPartition device "") = none)
    (h2 : pyInt (pyReplace env.getPartition (device ++ "p") "") = none) :
    (manage_uefi env device (some u)).1 = .error .valueError := by
  have hbody : manage_uefi_body env device (some u) =
      (.error .valueError,
       { tmpCreated := true, tmpExists := true, mounted := false, trace := [] }) := by
    unfold manage_uefi_body
    rw [hr]
    simp [hf, h1, h2]
  unfold manage_uefi
  rw [hbody]
  have hkeep := manage_uefi_cleanup_keeps_outcome env
    (wrapProcessError device (.error .valueError))
    { tmpCreated := true, tmpExists := true, mounted := false, trace := [] }
    rfl (fun hmt => by simp at hmt)
  rw [hkeep]
  rfl

/-- Environment for the C9 witness. -/
def envC9 : Env :=
  { envC2 with syncOk := true, findEfiPartition := none, getPartition := "/dev/weird" }

/-- Witness for C9: device `/dev/sda`, UUID-resolved partition path
`/dev/weird` (neither suffix convention applies). -/
theorem claim_C9_witness :
    (manage_uefi envC9 "/dev/sda" (some "uuid-1")).1 = .error .valueError := by
  apply claim_C9
  · rfl
  · rfl
  · simp [envC9, pyInt, pyReplace, pyReplaceCore, pyDigitsValue]
  · simp [envC9, pyInt, pyReplace, pyReplaceCore, pyDigitsValue]

/-! ### Claim C6 -/

theorem manage_uefi_sync_trace_mem (env : Env) (r : Except PyErr Bool) (st : St)
    (c : Cmd) (h : c ∈ st.trace) : c ∈ (manage_uefi_sync env r st).2.trace := by
  unfold manage_uefi_sync
  split <;> split <;> simp [h]

theorem manage_uefi_cleanup_trace_mem (env : Env) (r : Except PyErr Bool) (st : St)
    (c : Cmd) (h : c ∈ st.trace) : c ∈ (manage_uefi_cleanup env r st).2.trace := by
  unfold manage_uefi_cleanup
  split
  · split
    · simp [h]
    · apply manage_uefi_sync_trace_mem
      simp [h]
  · exact manage_uefi_sync_trace_mem _ _ _ _ h

theorem manage_uefi_body_mount_mem (env : Env) (device : String) (uuid : Option String)
    (part : Int) (hr : env.rescanOk = true) (hf : env.findEfiPartition = some part)
    (hp : part ≠ 0) (hd : device ≠ "") :
    Cmd.mount (efi_device_part device part) (env.tmpdir ++ "/boot/efi") ∈
      (manage_uefi_body env device uuid).2.trace := by
  unfold manage_uefi_body
  rw [hr]
  simp only [not_true_eq_false, if_false, hf]
  have hb : (part == (0 : Int)) = false := by simpa using hp
  simp only [hb]
  simp only [Bool.false_eq_true, false_and, if_false, hp, hd]
  repeat' split
  all_goals simp_all

theorem pyLastIsDigit_eq (device : String) (hd : device ≠ "") :
    pyLastIsDigit device = (device.data.getLastD ' ').isDigit := by
  unfold pyLastIsDigit
  have hne : device.data ≠ [] := fun h => hd (by cases device; simp_all)
  rw [List.getLast?_eq_getLast _ hne, List.getLastD_eq_getLast?,
    List.getLast?_eq_getLast _ hne]
  rfl

/-- C6: for every non-empty device path, the partition device path passed to
the `mount` command is the device with `p` and the partition number
appended when the device's last character is a decimal digit, and the
device with the partition number appended directly otherwise. -/
theorem claim_C6 (env : Env) (device : String) (uuid : Option String) (part : Int)
    (hr : env.rescanOk = true) (hf : env.findEfiPartition = some part)
    (hp : part ≠ 0) (hd : device ≠ "") :
    Cmd.mount
      (if (device.data.getLastD ' ').isDigit then device ++ "p" ++ toString part
       else device ++ toString part)
      (env.tmpdir ++ "/boot/efi") ∈ (manage_uefi env device uuid).2.trace := by
  have heq : (if (device.data.getLastD ' ').isDigit then device ++ "p" ++ toString part
      else device ++ toString part) = efi_device_part device part := by
    rw [efi_device_part, pyLastIsDigit_eq device hd]
  rw [heq]
  unfold manage_uefi
  exact manage_uefi_cleanup_trace_mem _ _ _ _
    (manage_uefi_body_mount_mem env device uuid part hr hf hp hd)

/-- Witness for C6 on an NVMe-style device name ending in a digit. -/
theorem claim_C6_witness :
    Cmd.mount "/dev/nvme0n1p1" "/tmp/T/boot/efi" ∈
      (manage_uefi envC2 "/dev/nvme0n1" none).2.trace := by
  have h := claim_C6 envC2 "/dev/nvme0n1" none 1 rfl rfl (by decide) (by decide)
  simpa using h

/-! ### Claims C3 and C8: the bootloader scan -/

/-- Spec-side: the matched files of a walk, in traversal order, as
`(root, file)` pairs. -/
def matchedFiles (entries : List (String × List FsFile)) : List (String × FsFile) :=
  (entries.map (fun e => (e.2.filter (fun f => isMatchedName f.name)).map
    (fun f => (e.1, f)))).flatten

/-- Spec-side description of the scan (spec §4.2): the first matched file
whose joined path passes the hint test short-circuits the walk to a
single-element sequence; otherwise the executable matched files, in
traversal order. -/
def scanSpec (location : String) (entries : List (String × List FsFile)) : List String :=
  match (matchedFiles entries).find? (fun rf => isHintPath rf.1 rf.2.name) with
  | some rf => [relOf location (rf.1 ++ "/" ++ rf.2.name)]
  | none =>
    ((matchedFiles entries).filter (fun rf => rf.2.executable)).map
      (fun rf => relOf location (rf.1 ++ "/" ++ rf.2.name))

theorem scanDirFiles_eq (location root : String) (fs : List FsFile) (acc : List String) :
    scanDirFiles location root fs acc =
      match fs.find? (fun f => isHintPath root f.name) with
      | some f => .error [relOf location (root ++ "/" ++ f.name)]
      | none => .ok (acc ++ (fs.filter (fun f => f.executable)).map
          (fun f => relOf location (root ++ "/" ++ f.name))) := by
  induction fs generalizing acc with
  | nil => simp [scanDirFiles]
  | cons f fs ih =>
    rw [scanDirFiles]
    cases hh : isHintPath root f.name with
    | true => simp [hh]
    | false =>
      rw [if_neg (by simp [hh])]
      rw [ih]
      rw [List.find?_cons_of_neg _ (by simp [hh])]
      cases hf : fs.find? (fun f => isHintPath root f.name) <;>
        cases hx : f.executable <;> simp [hf, hx, List.append_assoc]

theorem pairMap_find? (root : String) (p : String → FsFile → Bool) (fs : List FsFile) :
    (fs.map (fun f => (root, f))).find? (fun rf => p rf.1 rf.2) =
      (fs.find? (fun f => p root f)).map (fun f => (root, f)) := by
  induction fs with
  | nil => rfl
  | cons f fs ih => by_cases h : p root f <;> simp [h, ih]

theorem pairMap_filter_map (root : String) (q : FsFile → Bool)
    (g : String → FsFile → String) (fs : List FsFile) :
    ((fs.map (fun f => (root, f))).filter (fun rf => q rf.2)).map
        (fun rf => g rf.1 rf.2) =
      (fs.filter q).map (fun f => g root f) := by
  induction fs with
  | nil => rfl
  | cons f fs ih => by_cases h : q f <;> simp [h, ih]

theorem matchedFiles_cons (root : String) (files : List FsFile)
    (rest : List (String × List FsFile)) :
    matchedFiles ((root, files) :: rest) =
      (files.filter (fun f => isMatchedName f.name)).map (fun f => (root, f)) ++
        matchedFiles rest := by
  simp [matchedFiles]

theorem scanWalk_eq (location : String) (entries : List (String × List FsFile))
    (acc : List String) :
    scanWalk location entries acc =
      match (matchedFiles entries).find? (fun rf => isHintPath rf.1 rf.2.name) with
      | some rf => [relOf location (rf.1 ++ "/" ++ rf.2.name)]
      | none => acc ++ ((matchedFiles entries).filter (fun rf => rf.2.executable)).map
          (fun rf => relOf location (rf.1 ++ "/" ++ rf.2.name)) := by
  induction entries generalizing acc with
  | nil => simp [scanWalk, matchedFiles]
  | cons e rest ih =>
    obtain ⟨root, files⟩ := e
    rw [scanWalk, scanDirFiles_eq, matchedFiles_cons, List.find?_append,
      pairMap_find? root (fun r f => isHintPath r f.name)]
    cases hf : (files.filter (fun f => isMatchedName f.name)).find?
        (fun f => isHintPath root f.name) with
    | some f => simp [hf]
    | none =>
      simp only [hf, Option.map_none', Option.none_or]
      rw [ih]
      cases hr : (matchedFiles rest).find? (fun rf => isHintPath rf.1 rf.2.name) with
      | some rf => simp [hr]
      | none =>
        simp only [hr]
        rw [List.filter_append, List.map_append,
          pairMap_filter_map root (fun f => f.executable)
            (fun r f => relOf location (r ++ "/" ++ f.name))]
        simp [List.append_assoc]

/-- C3: for every directory tree rooted at the mount point, the scan equals
its spec-side description: a matched file passing the hint test
immediately yields the single-element sequence of just that file's
relative path, discarding accumulated executable candidates; with no hint
encountered, the scan returns exactly the matched files with an execute
bit, in traversal order. -/
theorem claim_C3 (location : String) (t : FsTree) :
    _get_efi_bootloaders location (walkTree location t) =
      scanSpec location (walkTree location t) := by
  rw [_get_efi_bootloaders, scanSpec, scanWalk_eq]
  cases h : (matchedFiles (walkTree location t)).find?
      (fun rf => isHintPath rf.1 rf.2.name) <;> simp [h]

/-- C8: the hint test is applied to the full joined path, lowercased, not
only to the filename: a recognized loader file inside a directory whose
path contains `csv` is treated as a hint file, and the scan returns that
single relative path immediately, discarding the rest of the walk. -/
theorem claim_C8 (location root name : String) (x : Bool)
    (post : List (String × List FsFile))
    (hname : isMatchedName name = true)
    (hcsv : pyContains (pyLower (root ++ "/" ++ name)) "csv" = true) :
    _get_efi_bootloaders location ((root, [⟨name, x⟩]) :: post) =
      [relOf location (root ++ "/" ++ name)] := by
  rw [_get_efi_bootloaders, scanWalk]
  simp [hname, scanDirFiles, isHintPath, hcsv]

/-- Witness for C8: `bootx64.efi` (no `csv` in its name, not even
executable) inside `/mnt/mycsv` wins over an executable `grubaa64.efi`
further along the walk. -/
theorem claim_C8_witness :
    _get_efi_bootloaders "/mnt" [("/mnt/mycsv", [⟨"bootx64.efi", false⟩]),
      ("/mnt/z", [⟨"grubaa64.efi", true⟩])] = ["mycsv/bootx64.efi"] := by
  have h := claim_C8 "/mnt" "/mnt/mycsv" "bootx64.efi" false
    [("/mnt/z", [⟨"grubaa64.efi", true⟩])] (by decide) (by decide)
  rw [h]
  simp [relOf, pySplit, pySplitCore, strTail]

/-! ### Claims C4, C5, C10: the NVRAM synchronizer -/

theorem candidateDeletes_eq (output label : String) :
    candidateDeletes output label =
      (pySplit output "\n" none).filterMap (fun line =>
        match entryMatch line with
        | some mtch =>
          if pyContains mtch.2 label then some (Cmd.deleteEntry mtch.1) else none
        | none => none) := by
  unfold candidateDeletes
  induction pySplit output "\n" none with
  | nil => rfl
  | cons l ls ih =>
    rw [List.foldr_cons, List.filterMap_cons, ih]
    cases hm : entryMatch l with
    | none => rfl
    | some mtch => by_cases hc : pyContains mtch.2 label <;> simp [hc]

/-- C4: for every candidate the synchronizer processes (here: the head of the
remaining candidate list, at any counter value), the emitted command
sequence is exactly one deletion per line of the boot-entry listing that
matches the `Boot<hex-id>` pattern and whose remainder contains the
candidate's label as a substring (in listing order, keyed by the captured
boot number), followed by the creation of the new entry, followed by the
commands of the remaining candidates. -/
theorem claim_C4 (device : String) (part : Int) (mp : String)
    (readFile : String → String) (output : String) (v_bl : String)
    (rest : List String) (label_id : Nat) (path label : String)
    (h : candidateLabelPath mp readFile v_bl label_id = .ok (path, label)) :
    (runEfibootmgrLoop device part mp readFile output (v_bl :: rest) label_id).1 =
      ((pySplit output "\n" none).filterMap (fun line =>
        match entryMatch line with
        | some mtch =>
          if pyContains mtch.2 label then some (Cmd.deleteEntry mtch.1) else none
        | none => none)) ++
      [Cmd.createEntry device part label path] ++
      (runEfibootmgrLoop device part mp readFile output rest (label_id + 1)).1 := by
  rw [runEfibootmgrLoop, h, ← candidateDeletes_eq]

/-- Witness for C4: label `ironic1` deletes entry `0001` whose remainder
contains `ironic1` only as an inner substring (`an-ironic1-entry`), then
creates the new entry. -/
theorem claim_C4_witness :
    candidateLabelPath "/mnt" (fun _ => "") "EFI/BOOT/BOOTX64.EFI" 1 =
      .ok ("\\EFI\\BOOT\\BOOTX64.EFI", "ironic1") ∧
    (runEfibootmgrLoop "/dev/sda" 1 "/mnt" (fun _ => "")
        "Boot0001* an-ironic1-entry\nBoot0002* other" ["EFI/BOOT/BOOTX64.EFI"] 1).1 =
      [Cmd.deleteEntry "0001",
       Cmd.createEntry "/dev/sda" 1 "ironic1" "\\EFI\\BOOT\\BOOTX64.EFI"] := by
  have hp : candidateLabelPath "/mnt" (fun _ => "") "EFI/BOOT/BOOTX64.EFI" 1 =
      .ok ("\\EFI\\BOOT\\BOOTX64.EFI", "ironic1") := by
    simp [candidateLabelPath, pyContains, pyLower, pyLowerChar, containsCore,
      pyReplace, pyReplaceCore]
    decide
  refine ⟨hp, ?_⟩
  rw [claim_C4 "/dev/sda" 1 "/mnt" (fun _ => "")
    "Boot0001* an-ironic1-entry\nBoot0002* other" "EFI/BOOT/BOOTX64.EFI" [] 1
    "\\EFI\\BOOT\\BOOTX64.EFI" "ironic1" hp]
  simp [pySplit, pySplitCore, entryMatch, isBootNumChar, pyContains, containsCore,
    runEfibootmgrLoop]

theorem pySplitCore_char_skip (c0 c : Char) (cs : List Char) (m : Option Nat)
    (hc : c ≠ c0) (hm : pySplitCore [c0] m cs ≠ []) :
    pySplitCore [c0] m (c :: cs) =
      (c :: (pySplitCore [c0] m cs).headD []) :: (pySplitCore [c0] m cs).tail := by
  rw [pySplitCore]
  have hpre : ¬ ([c0].isPrefixOf (c :: cs) = true) := by
    simp [List.isPrefixOf]
    intro h
    exact absurd h.symm hc
  rw [dif_neg (by simp [hpre])]
  cases hs : pySplitCore [c0] m cs with
  | nil => exact absurd hs hm
  | cons f fs => simp

theorem pySplitCore_ne_nil (sep : List Char) (m : Option Nat) (l : List Char) :
    pySplitCore sep m l ≠ [] := by
  induction l with
  | nil => rw [pySplitCore]; simp
  | cons c cs ih =>
    rw [pySplitCore]
    split
    · simp
    · cases hs : pySplitCore sep m cs <;> simp

theorem pySplitCore_no_char (c0 : Char) (a : List Char) (m : Option Nat) (h : c0 ∉ a) :
    pySplitCore [c0] m a = [a] := by
  induction a with
  | nil => rw [pySplitCore]
  | cons c cs ih =>
    have hc : c ≠ c0 := fun he => h (he ▸ List.mem_cons_self c cs)
    have hcs : c0 ∉ cs := fun hm => h (List.mem_cons_of_mem c hm)
    rw [pySplitCore_char_skip c0 c cs m hc (by rw [ih hcs]; simp), ih hcs]
    simp

theorem pySplitCore_char_sep_head (c0 : Char) (a rest : List Char) (m : Option Nat)
    (hm : m ≠ some 0) (h : c0 ∉ a) :
    pySplitCore [c0] m (a ++ c0 :: rest) =
      a :: pySplitCore [c0] (m.map (· - 1)) rest := by
  induction a with
  | nil =>
    rw [List.nil_append, pySplitCore]
    rw [dif_pos (by simp [List.isPrefixOf, hm])]
    rfl
  | cons c cs ih =>
    have hc : c ≠ c0 := fun he => h (he ▸ List.mem_cons_self c cs)
    have hcs : c0 ∉ cs := fun hmm => h (List.mem_cons_of_mem c hmm)
    rw [List.cons_append,
      pySplitCore_char_skip c0 c (cs ++ c0 :: rest) m hc
        (pySplitCore_ne_nil _ _ _),
      ih hcs]
    simp

theorem pySplitCore_comma_free_head (a rest : List Char) (n : Nat) (h : ',' ∉ a) :
    pySplitCore [','] (some (n + 1)) (a ++ ',' :: rest) =
      a :: pySplitCore [','] (some n) rest := by
  have hgen := pySplitCore_char_sep_head ',' a rest (some (n + 1)) (by simp) h
  simpa using hgen

theorem pySplitCore_maxsplit_zero (sep : List Char) (l : List Char) :
    pySplitCore sep (some 0) l = [l] := by
  induction l with
  | nil => rw [pySplitCore]
  | cons c cs ih =>
    rw [pySplitCore, dif_neg (by simp), ih]

theorem strMk_data (s : String) : (⟨s.data⟩ : String) = s := by
  cases s
  rfl

theorem containsCore_single (c0 : Char) (l : List Char) :
    containsCore [c0] l = false ↔ c0 ∉ l := by
  induction l with
  | nil => simp [containsCore]
  | cons d ds ih =>
    rw [containsCore]
    simp only [List.isPrefixOf, List.mem_cons, Bool.or_eq_false_iff, ih]
    constructor
    · rintro ⟨h1, h2⟩ (h | h)
      · simp [← h] at h1
      · exact h2 h
    · intro h
      refine ⟨?_, fun hm => h (Or.inr hm)⟩
      have hd : ¬ (c0 = d) := fun he => h (Or.inl he)
      simp [List.isPrefixOf]
      intro he
      cases he
      exact hd rfl

theorem pySplit_three_commas (a b c d : String)
    (ha : pyContains a "," = false) (hb : pyContains b "," = false)
    (hc : pyContains c "," = false) :
    pySplit (a ++ "," ++ b ++ "," ++ c ++ "," ++ d) "," (some 3) = [a, b, c, d] := by
  have ha' : ',' ∉ a.data := (containsCore_single ',' _).mp ha
  have hb' : ',' ∉ b.data := (containsCore_single ',' _).mp hb
  have hc' : ',' ∉ c.data := (containsCore_single ',' _).mp hc
  rw [pySplit]
  have hdata : (a ++ "," ++ b ++ "," ++ c ++ "," ++ d).data =
      a.data ++ ',' :: (b.data ++ ',' :: (c.data ++ ',' :: d.data)) := by
    simp [String.data_append]
  rw [hdata]
  have h3 : (3 : Nat) = 2 + 1 := rfl
  rw [h3, pySplitCore_comma_free_head _ _ 2 ha',
    pySplitCore_comma_free_head _ _ 1 hb',
    pySplitCore_comma_free_head _ _ 0 hc',
    pySplitCore_maxsplit_zero]
  simp [strMk_data]

theorem pySplit_ne_nil (s sep : String) (m : Option Nat) :
    pySplit s sep m ≠ [] := by
  rw [pySplit]
  cases h : pySplitCore sep.data m s.data with
  | nil => exact absurd h (pySplitCore_ne_nil _ _ _)
  | cons x xs => simp

theorem pySplit_first_comma (a r : String) (n : Nat)
    (ha : pyContains a "," = false) :
    pySplit (a ++ "," ++ r) "," (some (n + 1)) = a :: pySplit r "," (some n) := by
  rw [pySplit, pySplit]
  have hdata : (a ++ "," ++ r).data = a.data ++ ',' :: r.data := by
    simp [String.data_append]
  rw [hdata, pySplitCore_comma_free_head a.data r.data n
    ((containsCore_single ',' _).mp ha)]
  simp [strMk_data]

/-- C5: the hint parser splits the decoded content on at most the first
three commas: two-, three- and four-field contents split into exactly
their fields, a fourth field keeping any further commas verbatim. For
every content with at least two comma-separated fields (at least one
comma, decomposed as the comma-free first field `a` and remainder `r`),
parsing succeeds with field 1 as the loader filename substituted into
the candidate path and field 2 (the head of the remainder's split) as
the label; content with fewer than two fields (no comma) fails with a
parse error (the uncaught `IndexError` on field 2). -/
theorem claim_C5 :
    (∀ a b : String, pyContains a "," = false → pyContains b "," = false →
      pySplit (a ++ "," ++ b) "," (some 3) = [a, b]) ∧
    (∀ a b c : String, pyContains a "," = false → pyContains b "," = false →
      pyContains c "," = false →
      pySplit (a ++ "," ++ b ++ "," ++ c) "," (some 3) = [a, b, c]) ∧
    (∀ a b c d : String, pyContains a "," = false → pyContains b "," = false →
      pyContains c "," = false →
      pySplit (a ++ "," ++ b ++ "," ++ c ++ "," ++ d) "," (some 3) = [a, b, c, d]) ∧
    (∀ (mp v_bl : String) (label_id : Nat) (readFile : String → String)
      (a r : String),
      pyContains a "," = false →
      readFile (mp ++ "/" ++ v_bl) = a ++ "," ++ r →
      pyContains (pyLower v_bl) "csv" = true →
      candidateLabelPath mp readFile v_bl label_id =
        .ok ("\\" ++ pyReplace
          (pyReplace v_bl ((pySplit v_bl "/" none).getLastD "") a) "/" "\\",
          (pySplit r "," (some 2)).headD "")) ∧
    (∀ (mp v_bl : String) (label_id : Nat) (readFile : String → String)
      (a b c d : String),
      pyContains a "," = false → pyContains b "," = false →
      pyContains c "," = false →
      readFile (mp ++ "/" ++ v_bl) = a ++ "," ++ b ++ "," ++ c ++ "," ++ d →
      pyContains (pyLower v_bl) "csv" = true →
      candidateLabelPath mp readFile v_bl label_id =
        .ok ("\\" ++ pyReplace
          (pyReplace v_bl ((pySplit v_bl "/" none).getLastD "") a) "/" "\\", b)) ∧
    (∀ (mp v_bl : String) (label_id : Nat) (readFile : String → String),
      pyContains (readFile (mp ++ "/" ++ v_bl)) "," = false →
      pyContains (pyLower v_bl) "csv" = true →
      candidateLabelPath mp readFile v_bl label_id = .error .indexError) := by
  have h3eq : (3 : Nat) = 2 + 1 := rfl
  refine ⟨?_, ?_, pySplit_three_commas, ?_, ?_, ?_⟩
  · intro a b ha hb
    rw [h3eq, pySplit_first_comma a b 2 ha, pySplit,
      pySplitCore_no_char ',' _ _ ((containsCore_single ',' _).mp hb)]
    simp [strMk_data]
  · intro a b c ha hb hc
    have ha' : ',' ∉ a.data := (containsCore_single ',' _).mp ha
    have hb' : ',' ∉ b.data := (containsCore_single ',' _).mp hb
    have hc' : ',' ∉ c.data := (containsCore_single ',' _).mp hc
    rw [pySplit]
    have hdata : (a ++ "," ++ b ++ "," ++ c).data =
        a.data ++ ',' :: (b.data ++ ',' :: c.data) := by
      simp [String.data_append]
    rw [hdata, h3eq, pySplitCore_comma_free_head _ _ 2 ha',
      pySplitCore_comma_free_head _ _ 1 hb',
      pySplitCore_no_char ',' c.data _ hc']
    simp [strMk_data]
  · intro mp v_bl label_id readFile a r ha hread hcsv
    rw [candidateLabelPath, if_pos hcsv]
    dsimp only
    rw [hread, h3eq, pySplit_first_comma a r 2 ha]
    cases hL : pySplit r "," (some 2) with
    | nil => exact absurd hL (pySplit_ne_nil r "," (some 2))
    | cons x xs => simp
  · intro mp v_bl label_id readFile a b c d ha hb hc hread hcsv
    rw [candidateLabelPath, if_pos hcsv]
    dsimp only
    rw [hread, pySplit_three_commas a b c d ha hb hc]
    rfl
  · intro mp v_bl label_id readFile hnc hcsv
    rw [candidateLabelPath, if_pos hcsv]
    dsimp only
    have hone : pySplit (readFile (mp ++ "/" ++ v_bl)) "," (some 3) =
        [readFile (mp ++ "/" ++ v_bl)] := by
      rw [pySplit, pySplitCore_no_char ',' _ _ ((containsCore_single ',' _).mp hnc)]
      simp [strMk_data]
    rw [hone]
    rfl

/-- Witness for C5: a two-field hint content, a four-field content whose
fourth field contains a comma, and a comma-free content that fails to
parse. -/
theorem claim_C5_witness :
    pySplit ("shimx64.efi" ++ "," ++ "Fedora") "," (some 3) =
      ["shimx64.efi", "Fedora"] ∧
    candidateLabelPath "/mnt" (fun _ => "shimx64.efi,Fedora")
      "EFI/boot.csv" 1 = .ok ("\\EFI\\shimx64.efi", "Fedora") ∧
    pySplit ("shimx64.efi" ++ "," ++ "Fedora" ++ "," ++ "" ++ "," ++ "x,y") ","
        (some 3) = ["shimx64.efi", "Fedora", "", "x,y"] ∧
    candidateLabelPath "/mnt" (fun _ => "shimx64.efi,Fedora,,x,y")
        "EFI/boot.csv" 1 = .ok ("\\EFI\\shimx64.efi", "Fedora") ∧
    candidateLabelPath "/mnt" (fun _ => "nocommas") "EFI/boot.csv" 1 =
      .error .indexError := by
  obtain ⟨h2f, h3f, h4f, hgen, h4p, herr⟩ := claim_C5
  refine ⟨h2f "shimx64.efi" "Fedora" (by decide) (by decide), ?_,
    h4f "shimx64.efi" "Fedora" "" "x,y" (by decide) (by decide) (by decide),
    ?_, herr "/mnt" "EFI/boot.csv" 1 (fun _ => "nocommas")
      (by decide) (by decide)⟩
  · have h := hgen "/mnt" "EFI/boot.csv" 1 (fun _ => "shimx64.efi,Fedora")
      "shimx64.efi" "Fedora" (by decide) (by decide) (by decide)
    rw [h]
    simp [pySplit, pySplitCore, pyReplace, pyReplaceCore, strMk_data]
  · have h := h4p "/mnt" "EFI/boot.csv" 1
      (fun _ => "shimx64.efi,Fedora,,x,y") "shimx64.efi" "Fedora" "" "x,y"
      (by decide) (by decide) (by decide) (by decide) (by decide)
    rw [h]
    simp [pySplit, pySplitCore, pyReplace, pyReplaceCore]

/-- C10: the hint-filename substitution applies to every occurrence of the
hint file's filename in the candidate's relative path, not only the final
path component: for relative path `boot.csv/boot.csv`, whose directory
component equals the hint filename, the directory component is rewritten
too, and the created entry's loader path is `\grubx64.efi\grubx64.efi`. -/
theorem claim_C10 :
    (_run_efibootmgr ["boot.csv/boot.csv"] "/dev/sda" 1 "/mnt"
        (fun _ => "grubx64.efi,Fedora,,") "").1 =
      [Cmd.listEntries,
       Cmd.createEntry "/dev/sda" 1 "Fedora" "\\grubx64.efi\\grubx64.efi"] := by
  simp [_run_efibootmgr, runEfibootmgrLoop, candidateLabelPath, candidateDeletes,
    pySplit, pySplitCore, pyContains, containsCore, pyLower, pyLowerChar,
    pyReplace, pyReplaceCore, entryMatch]

/-! ### Claim C7: idempotence of the NVRAM synchronization -/

theorem char_toNat_ofNat (n : Nat) (h : n < 55296) : (Char.ofNat n).toNat = n := by
  have hv : n.isValidChar := Or.inl h
  simp [Char.ofNat, hv, Char.ofNatAux, Char.toNat, UInt32.toNat]

/-- One hexadecimal digit, uppercase. -/
def hexDigit (n : Nat) : Char :=
  if n < 10 then Char.ofNat ('0'.toNat + n) else Char.ofNat ('A'.toNat + (n - 10))

/-- Big-endian hexadecimal digits of `n` (empty for 0). -/
def hexCore : Nat → List Char
  | 0 => []
  | n + 1 => hexCore ((n + 1) / 16) ++ [hexDigit ((n + 1) % 16)]
decreasing_by exact Nat.div_lt_self (by omega) (by omega)

/-- Modelled from the spec: a boot-number identifier as it appears in the
`efibootmgr` listing (`Boot<hex-id>`): uppercase hexadecimal, zero-padded
to at least four digits. -/
def hexRender (n : Nat) : String :=
  ⟨List.replicate (4 - (hexCore n).length) '0' ++ hexCore n⟩

/-- Value of one hexadecimal digit character (inverse of `hexDigit`). -/
def hexDigitVal (c : Char) : Nat :=
  if c.isDigit then c.toNat - '0'.toNat else c.toNat - 'A'.toNat + 10

/-- Value of a big-endian hexadecimal digit string. -/
def hexVal (l : List Char) : Nat :=
  l.foldl (fun acc c => acc * 16 + hexDigitVal c) 0

theorem hexDigitVal_hexDigit : ∀ r : Nat, r < 16 → hexDigitVal (hexDigit r) = r := by
  decide

theorem hexDigit_props : ∀ r : Nat, r < 16 →
    (isBootNumChar (hexDigit r) = true ∧ hexDigit r ≠ '\n') := by
  decide

theorem hexVal_foldl_core (n : Nat) : ∀ a : Nat,
    (hexCore n).foldl (fun acc c => acc * 16 + hexDigitVal c) a =
      a * 16 ^ (hexCore n).length + n := by
  induction n using Nat.strong_induction_on with
  | _ n ih =>
    match n with
    | 0 => intro a; simp [hexCore]
    | n + 1 =>
      intro a
      rw [hexCore, List.foldl_append,
        ih ((n + 1) / 16) (Nat.div_lt_self (by omega) (by omega))]
      simp only [List.foldl_cons, List.foldl_nil, List.length_append,
        List.length_cons, List.length_nil]
      rw [hexDigitVal_hexDigit _ (Nat.mod_lt _ (by omega))]
      have hdm := Nat.div_add_mod (n + 1) 16
      have hp : (16 : Nat) ^ ((hexCore ((n + 1) / 16)).length + (0 + 1)) =
          16 ^ (hexCore ((n + 1) / 16)).length * 16 := by
        rw [Nat.zero_add, pow_succ]
      rw [hp]
      have hr : (a * 16 ^ (hexCore ((n + 1) / 16)).length + (n + 1) / 16) * 16 +
          (n + 1) % 16 =
          a * (16 ^ (hexCore ((n + 1) / 16)).length * 16) +
            (16 * ((n + 1) / 16) + (n + 1) % 16) := by ring
      rw [hr, hdm]

theorem hexVal_hexRender (n : Nat) : hexVal (hexRender n).data = n := by
  show hexVal (List.replicate (4 - (hexCore n).length) '0' ++ hexCore n) = n
  rw [hexVal, List.foldl_append]
  have hz : ∀ k, (List.replicate k '0').foldl
      (fun acc c => acc * 16 + hexDigitVal c) 0 = 0 := by
    intro k
    induction k with
    | zero => rfl
    | succ k ih => simpa [List.replicate_succ, hexDigitVal] using ih
  rw [hz]
  simpa using hexVal_foldl_core n 0

theorem hexRender_inj (a b : Nat) (h : hexRender a = hexRender b) : a = b := by
  have hv := congrArg (fun s => hexVal s.data) h
  simpa [hexVal_hexRender] using hv

theorem hexCore_chars (n : Nat) :
    ∀ c ∈ hexCore n, isBootNumChar c = true ∧ c ≠ '\n' := by
  induction n using Nat.strong_induction_on with
  | _ n ih =>
    match n with
    | 0 => intro c hc; simp [hexCore] at hc
    | n + 1 =>
      intro c hc
      rw [hexCore] at hc
      rcases List.mem_append.mp hc with h | h
      · exact ih ((n + 1) / 16) (Nat.div_lt_self (by omega) (by omega)) c h
      · rcases List.mem_singleton.mp h with rfl
        exact hexDigit_props _ (Nat.mod_lt _ (by omega))

theorem hexRender_chars (n : Nat) :
    ∀ c ∈ (hexRender n).data, isBootNumChar c = true ∧ c ≠ '\n' := by
  intro c hc
  rcases List.mem_append.mp hc with h | h
  · rcases List.eq_of_mem_replicate h with rfl
    exact ⟨by decide, by decide⟩
  · exact hexCore_chars n c h

theorem hexRender_ne_nil (n : Nat) : (hexRender n).data ≠ [] := by
  show List.replicate (4 - (hexCore n).length) '0' ++ hexCore n ≠ []
  cases hc : hexCore n with
  | nil => simp [hc]
  | cons c cs => simp

/-- Modelled from the spec: one firmware NVRAM boot entry as listed by
`efibootmgr -v` (spec §4.4 step 3 and §6): its boot number and the
remainder of its listing line after `Boot<hex-id>* `. -/
structure NvEntry where
  num : Nat
  remainder : String
deriving DecidableEq, Repr

/-- Modelled from the spec: the firmware NVRAM entry table. The spec does not
pin down the firmware's boot-number allocation, so the model allocates a
fresh, never-reused number (`nextFresh`) to each created entry. -/
structure NvState where
  entries : List NvEntry
  nextFresh : Nat
deriving DecidableEq, Repr

/-- Modelled from the spec: the listing line of one entry,
`Boot<hex-id>* <remainder>`. -/
def lineOf (e : NvEntry) : String :=
  "Boot" ++ hexRender e.num ++ "* " ++ e.remainder

/-- Newline-joined lines (the stdout of `efibootmgr -v` in the model). -/
def joinLines : List String → String
  | [] => ""
  | [l] => l
  | l :: l2 :: ls => l ++ "\n" ++ joinLines (l2 :: ls)

/-- Modelled from the spec: the full `efibootmgr -v` stdout for a table. -/
def render (nv : NvState) : String :=
  joinLines (nv.entries.map lineOf)

theorem takeWhile_all_append (p : Char → Bool) (l1 : List Char) (c : Char)
    (l2 : List Char) (h1 : ∀ x ∈ l1, p x = true) (h2 : p c = false) :
    (l1 ++ c :: l2).takeWhile p = l1 ∧ (l1 ++ c :: l2).dropWhile p = c :: l2 := by
  induction l1 with
  | nil => simp [List.takeWhile, List.dropWhile, h2]
  | cons x xs ih =>
    have hx : p x = true := h1 x (List.mem_cons_self x xs)
    have hxs : ∀ y ∈ xs, p y = true := fun y hy => h1 y (List.mem_cons_of_mem x hy)
    have hih := ih hxs
    simp [List.takeWhile_cons, List.dropWhile_cons, hx, hih.1, hih.2]

/-- The regex model recovers exactly the boot number and the remainder from a
rendered listing line. -/
theorem entryMatch_lineOf (e : NvEntry) :
    entryMatch (lineOf e) = some (hexRender e.num, e.remainder) := by
  rw [entryMatch, lineOf]
  have hdata : ("Boot" ++ hexRender e.num ++ "* " ++ e.remainder).data =
      'B' :: 'o' :: 'o' :: 't' ::
        ((hexRender e.num).data ++ '*' :: ' ' :: e.remainder.data) := by
    simp [String.data_append]
  rw [hdata]
  have hall : ∀ x ∈ (hexRender e.num).data, isBootNumChar x = true :=
    fun x hx => (hexRender_chars e.num x hx).1
  have htd := takeWhile_all_append isBootNumChar (hexRender e.num).data '*'
    (' ' :: e.remainder.data) hall (by decide)
  simp only [htd.1, htd.2]
  rw [if_neg (by simpa using hexRender_ne_nil e.num)]
  simp [strMk_data]

theorem pySplit_joinLines (ls : List String) (hne : ls ≠ [])
    (h : ∀ l ∈ ls, '\n' ∉ l.data) :
    pySplit (joinLines ls) "\n" none = ls := by
  induction ls with
  | nil => exact absurd rfl hne
  | cons l rest ih =>
    cases rest with
    | nil =>
      rw [joinLines, pySplit,
        pySplitCore_no_char '\n' _ _ (h l (List.mem_cons_self l []))]
      simp [strMk_data]
    | cons l2 rest2 =>
      rw [joinLines, pySplit]
      have hdata : (l ++ "\n" ++ joinLines (l2 :: rest2)).data =
          l.data ++ '\n' :: (joinLines (l2 :: rest2)).data := by
        simp [String.data_append]
      rw [hdata,
        pySplitCore_char_sep_head '\n' _ _ none (by simp)
          (h l (List.mem_cons_self l _))]
      have hrest := ih (by simp) (fun x hx => h x (List.mem_cons_of_mem l hx))
      rw [pySplit] at hrest
      simp only [List.map_cons, strMk_data]
      rw [show (Option.map (fun x => x - 1) none : Option Nat) = none from rfl]
      rw [hrest]

/-- The deletions a candidate with label `label` triggers against a rendered
table: one per entry whose remainder contains the label. -/
theorem candidateDeletes_render (nv : NvState) (label : String)
    (h : ∀ e ∈ nv.entries, '\n' ∉ e.remainder.data) :
    candidateDeletes (render nv) label =
      (nv.entries.filter (fun e => pyContains e.remainder label)).map
        (fun e => Cmd.deleteEntry (hexRender e.num)) := by
  rw [candidateDeletes_eq, render]
  cases hes : nv.entries with
  | nil =>
    simp [joinLines, pySplit, pySplitCore, entryMatch]
  | cons e es =>
    have hlines : pySplit (joinLines ((e :: es).map lineOf)) "\n" none =
        (e :: es).map lineOf := by
      apply pySplit_joinLines
      · simp
      · intro l hl
        rcases List.mem_map.mp hl with ⟨e', he', rfl⟩
        rw [lineOf]
        have hd : ("Boot" ++ hexRender e'.num ++ "* " ++ e'.remainder).data =
            'B' :: 'o' :: 'o' :: 't' ::
              ((hexRender e'.num).data ++ '*' :: ' ' :: e'.remainder.data) := by
          simp [String.data_append]
        rw [hd]
        intro hmem
        simp [List.mem_cons, List.mem_append] at hmem
        rcases hmem with h1 | h1
        · exact (hexRender_chars e'.num _ h1).2 rfl
        · exact h e' (hes ▸ he') h1
    rw [hlines, List.filterMap_map]
    rw [← hes]
    have hgen : ∀ l : List NvEntry, (∀ e' ∈ l, e' ∈ nv.entries) →
        l.filterMap ((fun line =>
          match entryMatch line with
          | some mtch =>
            if pyContains mtch.2 label then some (Cmd.deleteEntry mtch.1) else none
          | none => none) ∘ lineOf) =
        (l.filter (fun e => pyContains e.remainder label)).map
          (fun e => Cmd.deleteEntry (hexRender e.num)) := by
      intro l
      induction l with
      | nil => intro _; rfl
      | cons x xs ih =>
        intro hsub
        rw [List.filterMap_cons, List.filter_cons]
        simp only [Function.comp_apply, entryMatch_lineOf x]
        by_cases hc : pyContains x.remainder label
        · rw [if_pos hc, if_pos hc,
            ih (fun e' he' => hsub e' (List.mem_cons_of_mem x he'))]
          rfl
        · rw [if_neg hc, if_neg hc]
          exact ih (fun e' he' => hsub e' (List.mem_cons_of_mem x he'))
    rw [hes]
    exact hgen (e :: es) (fun e' he' => hes ▸ he')

/-- Modelled from the spec: the effect of one command on the NVRAM table.
`efibootmgr -b <id> -B` removes the entries whose rendered boot number is
`<id>` (removing an absent number is a no-op); `efibootmgr -c ... -L
label ...` appends a new entry under a fresh boot number whose listing
remainder is its label. Other commands leave the table unchanged. -/
def applyCmd (nv : NvState) : Cmd → NvState
  | Cmd.deleteEntry s =>
    { nv with entries := nv.entries.filter (fun e => hexRender e.num != s) }
  | Cmd.createEntry _ _ label _ =>
    { entries := nv.entries ++ [⟨nv.nextFresh, label⟩], nextFresh := nv.nextFresh + 1 }
  | _ => nv

/-- Applying a command trace to the NVRAM table, in order. -/
def applyTrace (nv : NvState) (tr : List Cmd) : NvState :=
  tr.foldl applyCmd nv

/-- One full synchronizer run against the firmware state: `efibootmgr -v`
reads the rendered table, and the emitted commands are applied in order;
fails if the candidate loop raised. -/
def runNvram (bls : List String) (device : String) (part : Int) (mp : String)
    (readFile : String → String) (nv : NvState) : Except PyErr NvState :=
  let r := _run_efibootmgr bls device part mp readFile (render nv)
  match r.2 with
  | some e => .error e
  | none => .ok (applyTrace nv r.1)

/-- The labels the candidate loop assigns, in order (the error case
contributes nothing; a run in which some hint parse fails raises and is
excluded by the theorems' hypotheses). -/
def labelsOf (mp : String) (readFile : String → String) :
    List String → Nat → List String
  | [], _ => []
  | v_bl :: rest, label_id =>
    match candidateLabelPath mp readFile v_bl label_id with
    | .ok pl => pl.2 :: labelsOf mp readFile rest (label_id + 1)
    | .error _ => labelsOf mp readFile rest (label_id + 1)

/-- Well-formedness of a modelled NVRAM table: boot numbers are below the
fresh supply and pairwise distinct, and remainders are newline-free (a
remainder with a newline could not come out of a listing line). -/
def WFNv (nv : NvState) : Prop :=
  (∀ e ∈ nv.entries, e.num < nv.nextFresh ∧ '\n' ∉ e.remainder.data) ∧
  (nv.entries.map (fun e => e.num)).Nodup

/-- The entries of `nv` that survive a run assigning labels `ls`: those
whose remainder contains none of the labels. -/
def survEntries (nv : NvState) (ls : List String) : List NvEntry :=
  nv.entries.filter (fun e => ls.all (fun l => !pyContains e.remainder l))

/-- The entries a run creates for labels `ls`, numbered from `base`. -/
def createdEntries (base : Nat) : List String → List NvEntry
  | [] => []
  | l :: ls => ⟨base, l⟩ :: createdEntries (base + 1) ls

/-- The table state after the candidates with labels `done` have been
processed, starting from `nv`. -/
def mkMid (nv : NvState) (done : List String) : NvState :=
  ⟨survEntries nv done ++ createdEntries nv.nextFresh done,
   nv.nextFresh + done.length⟩

theorem applyTrace_append (nv : NvState) (t1 t2 : List Cmd) :
    applyTrace nv (t1 ++ t2) = applyTrace (applyTrace nv t1) t2 :=
  List.foldl_append applyCmd nv t1 t2

theorem applyTrace_deletes (ds : List String) : ∀ st : NvState,
    applyTrace st (ds.map Cmd.deleteEntry) =
      { st with
        entries := st.entries.filter (fun e => !(ds.contains (hexRender e.num))) } := by
  induction ds with
  | nil => intro st; simp [applyTrace]
  | cons d ds ih =>
    intro st
    rw [List.map_cons]
    show applyTrace (applyCmd st (Cmd.deleteEntry d)) (ds.map Cmd.deleteEntry) = _
    rw [ih]
    simp only [applyCmd, List.filter_filter]
    congr 1
    apply List.filter_congr
    intro e _
    simp only [List.contains_cons, Bool.not_or, bne]
    cases hexRender e.num == d <;> cases ds.contains (hexRender e.num) <;> rfl

theorem createdEntries_append_one (base : Nat) (done : List String) (l : String) :
    createdEntries base (done ++ [l]) =
      createdEntries base done ++ [⟨base + done.length, l⟩] := by
  induction done generalizing base with
  | nil => simp [createdEntries]
  | cons d ds ih =>
    rw [List.cons_append, createdEntries, createdEntries, ih]
    simp only [List.cons_append, List.length_cons]
    have h : base + 1 + ds.length = base + (ds.length + 1) := by omega
    rw [h]

theorem createdEntries_mem (base : Nat) (ls : List String) (e : NvEntry)
    (he : e ∈ createdEntries base ls) :
    base ≤ e.num ∧ e.num < base + ls.length ∧ e.remainder ∈ ls := by
  induction ls generalizing base with
  | nil => simp [createdEntries] at he
  | cons l ls ih =>
    rw [createdEntries] at he
    rcases List.mem_cons.mp he with rfl | he'
    · refine ⟨le_refl _, ?_, List.mem_cons_self _ _⟩
      simp only [List.length_cons]
      omega
    · have := ih (base + 1) he'
      refine ⟨by omega, by simp only [List.length_cons]; omega, ?_⟩
      exact List.mem_cons_of_mem l this.2.2

theorem createdEntries_map_num (base : Nat) (ls : List String) :
    (createdEntries base ls).map (fun e => e.num) = List.range' base ls.length := by
  induction ls generalizing base with
  | nil => simp [createdEntries]
  | cons l ls ih =>
    rw [createdEntries, List.map_cons, ih, List.length_cons, List.range'_succ]

theorem contains_iff_mem_str (a : String) (l : List String) :
    l.contains a = true ↔ a ∈ l :=
  List.elem_iff

theorem ds_contains_of_mem (nv : NvState) (hwf : WFNv nv) (l : String)
    (e : NvEntry) (he : e ∈ nv.entries) :
    ((nv.entries.filter (fun x => pyContains x.remainder l)).map
      (fun x => hexRender x.num)).contains (hexRender e.num) =
      pyContains e.remainder l := by
  by_cases hc : pyContains e.remainder l
  · rw [hc]
    rw [contains_iff_mem_str]
    exact List.mem_map_of_mem _ (List.mem_filter.mpr ⟨he, hc⟩)
  · simp only [Bool.not_eq_true] at hc
    rw [hc]
    rw [← Bool.not_eq_true]
    rw [contains_iff_mem_str]
    intro hmem
    rcases List.mem_map.mp hmem with ⟨x, hx, hxe⟩
    have hx' := List.mem_filter.mp hx
    have hnum : x.num = e.num := hexRender_inj _ _ hxe
    have hxeq : x = e := List.inj_on_of_nodup_map hwf.2 hx'.1 he hnum
    rw [hxeq] at hx'
    rw [hx'.2] at hc
    exact Bool.true_eq_false.mp hc

theorem ds_not_contains_fresh (nv : NvState) (hwf : WFNv nv) (l : String)
    (m : Nat) (hm : nv.nextFresh ≤ m) :
    ((nv.entries.filter (fun x => pyContains x.remainder l)).map
      (fun x => hexRender x.num)).contains (hexRender m) = false := by
  rw [← Bool.not_eq_true, contains_iff_mem_str]
  intro hmem
  rcases List.mem_map.mp hmem with ⟨x, hx, hxe⟩
  have hx' := List.mem_filter.mp hx
  have hnum : x.num = m := hexRender_inj _ _ hxe
  have := (hwf.1 x hx'.1).1
  omega

/-- Processing one candidate with label `l` from the mid-state: the stale
deletions remove exactly the original entries containing `l`, and the
creation appends the fresh entry for `l`. -/
theorem applyCandidate_step (nv : NvState) (hwf : WFNv nv) (done : List String)
    (l path : String) (device : String) (part : Int) :
    applyTrace (mkMid nv done)
      (candidateDeletes (render nv) l ++ [Cmd.createEntry device part l path]) =
      mkMid nv (done ++ [l]) := by
  rw [applyTrace_append,
    candidateDeletes_render nv l (fun e he => (hwf.1 e he).2)]
  rw [show (nv.entries.filter (fun e => pyContains e.remainder l)).map
      (fun e => Cmd.deleteEntry (hexRender e.num)) =
      ((nv.entries.filter (fun e => pyContains e.remainder l)).map
        (fun e => hexRender e.num)).map Cmd.deleteEntry by
    rw [List.map_map]
    rfl]
  rw [applyTrace_deletes]
  have hentries : (survEntries nv done ++ createdEntries nv.nextFresh done).filter
      (fun e => !(((nv.entries.filter (fun x => pyContains x.remainder l)).map
        (fun x => hexRender x.num)).contains (hexRender e.num))) =
      survEntries nv (done ++ [l]) ++ createdEntries nv.nextFresh done := by
    rw [List.filter_append]
    congr 1
    · rw [survEntries, List.filter_filter, survEntries]
      apply List.filter_congr
      intro e he
      rw [ds_contains_of_mem nv hwf l e he]
      simp only [List.all_append, List.all_cons, List.all_nil]
      cases hc : pyContains e.remainder l <;>
        cases hd : done.all (fun x => !pyContains e.remainder x) <;> rfl
    · apply List.filter_eq_self.mpr
      intro e he
      have hmem := createdEntries_mem nv.nextFresh done e he
      rw [ds_not_contains_fresh nv hwf l e.num hmem.1]
      rfl
  rw [applyTrace]
  simp only [List.foldl_cons, List.foldl_nil, applyCmd, mkMid]
  rw [hentries]
  rw [createdEntries_append_one]
  simp only [List.append_assoc, List.length_append, List.length_cons,
    List.length_nil, NvState.mk.injEq]
  constructor
  · trivial
  · omega

/-- The whole candidate loop from the mid-state: all stale deletions and
creations, candidate by candidate. -/
theorem loop_effect (device : String) (part : Int) (mp : String)
    (readFile : String → String) (nv : NvState) (hwf : WFNv nv) :
    ∀ (bls : List String) (label_id : Nat) (done : List String),
      (runEfibootmgrLoop device part mp readFile (render nv) bls label_id).2 = none →
      applyTrace (mkMid nv done)
          (runEfibootmgrLoop device part mp readFile (render nv) bls label_id).1 =
        mkMid nv (done ++ labelsOf mp readFile bls label_id) := by
  intro bls
  induction bls with
  | nil =>
    intro label_id done _
    simp [runEfibootmgrLoop, applyTrace, labelsOf]
  | cons v_bl rest ih =>
    intro label_id done hok
    cases hcl : candidateLabelPath mp readFile v_bl label_id with
    | error e =>
      rw [runEfibootmgrLoop, hcl] at hok
      simp at hok
    | ok pl =>
      have htr : runEfibootmgrLoop device part mp readFile (render nv)
          (v_bl :: rest) label_id =
          ((candidateDeletes (render nv) pl.2 ++
              [Cmd.createEntry device part pl.2 pl.1]) ++
            (runEfibootmgrLoop device part mp readFile (render nv) rest
              (label_id + 1)).1,
           (runEfibootmgrLoop device part mp readFile (render nv) rest
              (label_id + 1)).2) := by
        rw [runEfibootmgrLoop, hcl]
      have hlab : labelsOf mp readFile (v_bl :: rest) label_id =
          pl.2 :: labelsOf mp readFile rest (label_id + 1) := by
        rw [labelsOf, hcl]
      rw [htr] at hok
      rw [htr, hlab]
      dsimp only at hok ⊢
      rw [applyTrace_append, applyCandidate_step nv hwf done pl.2 pl.1 device part,
        ih (label_id + 1) (done ++ [pl.2]) hok]
      congr 1
      simp

theorem mkMid_nil (nv : NvState) : mkMid nv [] = nv := by
  rw [mkMid, survEntries, createdEntries]
  simp [List.filter_eq_self]

/-- Characterization of a successful synchronizer run: the survivors of the
label set plus one fresh entry per label, in order. -/
theorem runNvram_ok (bls : List String) (device : String) (part : Int)
    (mp : String) (readFile : String → String) (nv nv' : NvState)
    (hwf : WFNv nv)
    (h : runNvram bls device part mp readFile nv = .ok nv') :
    nv' = mkMid nv (labelsOf mp readFile bls 1) := by
  rw [runNvram, _run_efibootmgr] at h
  cases hok : (runEfibootmgrLoop device part mp readFile (render nv) bls 1).2 with
  | some e => rw [hok] at h; exact absurd h (by simp)
  | none =>
    rw [hok] at h
    dsimp only at h
    have happ := loop_effect device part mp readFile nv hwf bls 1 [] hok
    rw [mkMid_nil] at happ
    have hlist : applyTrace nv (Cmd.listEntries ::
        (runEfibootmgrLoop device part mp readFile (render nv) bls 1).1) =
        applyTrace nv
          (runEfibootmgrLoop device part mp readFile (render nv) bls 1).1 := rfl
    rw [hlist] at h
    rw [happ] at h
    have := Except.ok.inj h
    simp at this
    rw [← this]

/-- A run from a well-formed table leaves a well-formed table, provided the
assigned labels are newline-free. -/
theorem WFNv_mkMid (nv : NvState) (hwf : WFNv nv) (ls : List String)
    (hnl : ∀ l ∈ ls, '\n' ∉ l.data) : WFNv (mkMid nv ls) := by
  constructor
  · intro e he
    rw [mkMid] at he
    rcases List.mem_append.mp he with h1 | h1
    · have hm := List.mem_filter.mp h1
      have := hwf.1 e hm.1
      refine ⟨by simp only [mkMid]; omega, this.2⟩
    · have hm := createdEntries_mem nv.nextFresh ls e h1
      refine ⟨by simp only [mkMid]; omega, hnl e.remainder hm.2.2⟩
  · rw [mkMid]
    dsimp only
    rw [List.map_append]
    apply List.Nodup.append
    · apply List.Sublist.nodup _ hwf.2
      exact List.Sublist.map _ (List.filter_sublist nv.entries)
    · rw [createdEntries_map_num]
      exact List.nodup_range' nv.nextFresh ls.length
    · intro a ha hb
      rcases List.mem_map.mp ha with ⟨x, hx, rfl⟩
      have hlt := (hwf.1 x (List.mem_filter.mp hx).1).1
      rw [createdEntries_map_num] at hb
      have := List.mem_range'.mp hb
      omega

theorem isPrefixOf_self (l : List Char) : l.isPrefixOf l = true := by
  induction l with
  | nil => rfl
  | cons c cs ih => simp [List.isPrefixOf, ih]

theorem pyContains_self (s : String) : pyContains s s = true := by
  rw [pyContains]
  cases hd : s.data with
  | nil => rfl
  | cons c cs =>
    rw [containsCore]
    simp [isPrefixOf_self]

theorem createdEntries_countP (b : Nat) (ls : List String) (l : String) :
    (createdEntries b ls).countP (fun e => e.remainder == l) =
      ls.countP (fun x => x == l) := by
  induction ls generalizing b with
  | nil => rfl
  | cons x xs ih => simp [createdEntries, List.countP_cons, ih]

/-- C7: running the full synchronization twice in succession against the same
device with the same resulting label set leaves exactly one firmware NVRAM
entry per label: the second run's substring-match deletion pass removes
the entries created by the first run before the creation step recreates
them. (NVRAM semantics modelled from the spec; boot numbers are allocated
fresh.) -/
theorem claim_C7 (bls : List String) (device : String) (part : Int)
    (mp : String) (readFile : String → String) (nv0 nv1 nv2 : NvState)
    (hwf : WFNv nv0)
    (hnd : (labelsOf mp readFile bls 1).Nodup)
    (hnl : ∀ l ∈ labelsOf mp readFile bls 1, '\n' ∉ l.data)
    (h1 : runNvram bls device part mp readFile nv0 = .ok nv1)
    (h2 : runNvram bls device part mp readFile nv1 = .ok nv2) :
    ∀ l ∈ labelsOf mp readFile bls 1,
      nv2.entries.countP (fun e => e.remainder == l) = 1 := by
  intro l hl
  have e1 := runNvram_ok bls device part mp readFile nv0 nv1 hwf h1
  have hwf1 : WFNv nv1 := by
    rw [e1]
    exact WFNv_mkMid nv0 hwf _ hnl
  have e2 := runNvram_ok bls device part mp readFile nv1 nv2 hwf1 h2
  rw [e2, mkMid]
  dsimp only
  rw [List.countP_append]
  have hsurv : (survEntries nv1 (labelsOf mp readFile bls 1)).countP
      (fun e => e.remainder == l) = 0 := by
    apply List.countP_eq_zero.mpr
    intro e he
    have hm := List.mem_filter.mp he
    intro hbeq
    have heq : e.remainder = l := by simpa using hbeq
    have hall := List.all_eq_true.mp hm.2 l hl
    rw [heq, pyContains_self] at hall
    simp at hall
  rw [hsurv, createdEntries_countP]
  have hcnt : (labelsOf mp readFile bls 1).countP (fun x => x == l) =
      (labelsOf mp readFile bls 1).count l := rfl
  rw [hcnt, List.count_eq_one_of_mem hnd hl]

theorem toString_one : (toString (1 : Nat)) = "1" := rfl

/-- Environment for the C7 witness. -/
def nvW0 : NvState := ⟨[⟨0, "old ironic1 boot"⟩], 1⟩

/-- Witness for C7: one candidate labelled `ironic1`, a pre-existing stale
entry containing the label; after two runs exactly one `ironic1` entry
remains. -/
theorem claim_C7_witness :
    runNvram ["EFI/BOOT/BOOTX64.EFI"] "/dev/sda" 1 "/mnt" (fun _ => "") nvW0 =
      .ok ⟨[⟨1, "ironic1"⟩], 2⟩ ∧
    runNvram ["EFI/BOOT/BOOTX64.EFI"] "/dev/sda" 1 "/mnt" (fun _ => "")
      ⟨[⟨1, "ironic1"⟩], 2⟩ = .ok ⟨[⟨2, "ironic1"⟩], 3⟩ ∧
    ∀ l ∈ labelsOf "/mnt" (fun _ => "") ["EFI/BOOT/BOOTX64.EFI"] 1,
      (⟨[⟨2, "ironic1"⟩], 3⟩ : NvState).entries.countP
        (fun e => e.remainder == l) = 1 := by
  have hlab : labelsOf "/mnt" (fun _ => "") ["EFI/BOOT/BOOTX64.EFI"] 1 =
      ["ironic1"] := by
    simp [labelsOf, candidateLabelPath, pyContains, containsCore, pyLower,
      pyLowerChar, toString_one]
  have h1 : runNvram ["EFI/BOOT/BOOTX64.EFI"] "/dev/sda" 1 "/mnt" (fun _ => "")
      nvW0 = .ok ⟨[⟨1, "ironic1"⟩], 2⟩ := by
    simp [runNvram, _run_efibootmgr, runEfibootmgrLoop, candidateLabelPath,
      candidateDeletes, applyTrace, applyCmd, nvW0, render, joinLines, lineOf,
      hexRender, hexCore, hexDigit, entryMatch, isBootNumChar, pySplit,
      pySplitCore, pyContains, containsCore, pyLower, pyLowerChar, pyReplace,
      pyReplaceCore, strMk_data, toString_one, List.cons_prefix_cons,
      List.nil_prefix]
  have h2 : runNvram ["EFI/BOOT/BOOTX64.EFI"] "/dev/sda" 1 "/mnt" (fun _ => "")
      ⟨[⟨1, "ironic1"⟩], 2⟩ = .ok ⟨[⟨2, "ironic1"⟩], 3⟩ := by
    simp [runNvram, _run_efibootmgr, runEfibootmgrLoop, candidateLabelPath,
      candidateDeletes, applyTrace, applyCmd, render, joinLines, lineOf,
      hexRender, hexCore, hexDigit, entryMatch, isBootNumChar, pySplit,
      pySplitCore, pyContains, containsCore, pyLower, pyLowerChar, pyReplace,
      pyReplaceCore, strMk_data, toString_one, List.cons_prefix_cons,
      List.nil_prefix]
  refine ⟨h1, h2, ?_⟩
  exact claim_C7 ["EFI/BOOT/BOOTX64.EFI"] "/dev/sda" 1 "/mnt" (fun _ => "")
    nvW0 ⟨[⟨1, "ironic1"⟩], 2⟩ ⟨[⟨2, "ironic1"⟩], 3⟩
    (by unfold WFNv nvW0; decide)
    (by rw [hlab]; simp)
    (by rw [hlab]; intro l hl; simp at hl; rw [hl]; decide)
    h1 h2
